import Mathlib

set_option maxHeartbeats 1000000
set_option maxRecDepth 4000

/-!
Shallow embedding of the DharmaCraft game server
(src/code_with_q_cli/game-server/src/main.cpp).

Modelling conventions:
* Wall-clock reads (std::time(nullptr)) are modelled by passing the
  current time as an explicit integer argument to every operation that
  reads the clock in the source.
* Each std::map<std::string, T> is modelled by an association list
  `List (String × T)` with insert-or-replace (`ainsert`, mirroring
  `operator[]` assignment), first-match lookup (`afind`, mirroring
  `find`) and first-match erase (`aerase`, mirroring `erase(it)`).
  Keys are unique in every state reachable through the API; theorems
  that need uniqueness take it as the `keysNodup` hypothesis.
* JSON serialization is modelled structurally: `WorldChunk::serialize`
  produces the `SerializedChunk` record carrying exactly the data the
  source puts into the JSON object (chunkId, RLE blocks, lastModified);
  `GameWorld::serializeChunk` returns `none` for the absent-chunk
  sentinel blob "{}".
* The C++ `static_cast<float>(x)` in GameWorld::setBlock/getBlock is
  modelled exactly by `floatRound`: IEEE-754 binary32 rounding of an
  integer to 24 significant bits, round-to-nearest, ties to even.
-/

/-- MAX_PLAYERS from main.cpp (line 23). -/
def MAX_PLAYERS : Nat := 16

/-- First-match lookup in an association list; models std::map::find. -/
def afind {α : Type} : List (String × α) → String → Option α
  | [], _ => none
  | e :: rest, k => if e.1 = k then some e.2 else afind rest k

/-- Insert-or-replace; models assignment through std::map::operator[]. -/
def ainsert {α : Type} : List (String × α) → String → α → List (String × α)
  | [], k, v => [(k, v)]
  | e :: rest, k, v => if e.1 = k then (k, v) :: rest else e :: ainsert rest k v

/-- Erase the first entry with the given key; models std::map::erase of
the iterator returned by find (no-op when absent). -/
def aerase {α : Type} : List (String × α) → String → List (String × α)
  | [], _ => []
  | e :: rest, k => if e.1 = k then rest else e :: aerase rest k

/-- Key uniqueness, the std::map representation invariant. -/
def keysNodup {α : Type} (m : List (String × α)) : Prop :=
  (m.map Prod.fst).Nodup

/-- Inner loop of the run-length encoder in WorldChunk::serialize
(main.cpp lines 79-88): `cur`/`cnt` are the `currentBlock`/`count`
locals, the list argument is the unscanned tail. -/
def rleEncodeGo (cur : Int) (cnt : Nat) : List Int → List (Int × Nat)
  | [] => [(cur, cnt)]
  | x :: xs => if x = cur then rleEncodeGo cur (cnt + 1) xs else (cur, cnt) :: rleEncodeGo x 1 xs

/-- Run-length encoding of the block array as built by
WorldChunk::serialize; the source reads blocks[0] unconditionally, which
is well defined because the block array always has 65536 entries. -/
def rleEncode : List Int → List (Int × Nat)
  | [] => []
  | b :: rest => rleEncodeGo b 1 rest

/-- Decoding a {type, count} list: concatenate `count` copies of each
`type` in array order (the RLE reading direction stated by the spec). -/
def rleDecode : List (Int × Nat) → List Int
  | [] => []
  | (t, n) :: rest => List.replicate n t ++ rleDecode rest

/-- WorldChunk from main.cpp: chunk coordinates, the dense block array,
and the modification timestamp. -/
structure WorldChunk where
  chunkX : Int
  chunkZ : Int
  blocks : List Int
  lastModified : Int

/-- The WorldChunk constructor: all-zero block array of size
CHUNK_SIZE * CHUNK_SIZE * 256 and lastModified = 0. -/
def WorldChunk.new (x z : Int) : WorldChunk :=
  { chunkX := x, chunkZ := z, blocks := List.replicate (16 * 16 * 256) 0, lastModified := 0 }

/-- WorldChunk::getChunkId. -/
def WorldChunk.getChunkId (c : WorldChunk) : String :=
  toString c.chunkX ++ ":" ++ toString c.chunkZ

/-- WorldChunk::setBlock: silently rejects out-of-range coordinates,
otherwise writes the cell at index y*CHUNK_SIZE*CHUNK_SIZE + z*CHUNK_SIZE + x
and stamps lastModified with the current time. -/
def WorldChunk.setBlock (c : WorldChunk) (x y z blockType now : Int) : WorldChunk :=
  if x < 0 ∨ 16 ≤ x ∨ y < 0 ∨ 256 ≤ y ∨ z < 0 ∨ 16 ≤ z then c
  else { c with blocks := c.blocks.set (y * 16 * 16 + z * 16 + x).toNat blockType,
                lastModified := now }

/-- WorldChunk::getBlock: 0 for out-of-range coordinates, otherwise the
stored cell. -/
def WorldChunk.getBlock (c : WorldChunk) (x y z : Int) : Int :=
  if x < 0 ∨ 16 ≤ x ∨ y < 0 ∨ 256 ≤ y ∨ z < 0 ∨ 16 ≤ z then 0
  else c.blocks.getD (y * 16 * 16 + z * 16 + x).toNat 0

/-- The data WorldChunk::serialize writes into its JSON object. -/
structure SerializedChunk where
  chunkId : String
  blocks : List (Int × Nat)
  lastModified : Int

/-- WorldChunk::serialize: chunk id, run-length-encoded blocks, and the
timestamp. -/
def WorldChunk.serialize (c : WorldChunk) : SerializedChunk :=
  { chunkId := c.getChunkId, blocks := rleEncode c.blocks, lastModified := c.lastModified }

/-- Number of low bits dropped when a natural is rounded to a 24-bit
significand: the smallest e with m / 2^e < 2^24, computed with explicit
fuel (the first argument) so the recursion is structural. -/
def scale24 : Nat → Nat → Nat
  | 0, _ => 0
  | fuel + 1, m => if m < 16777216 then 0 else scale24 fuel (m / 2) + 1

/-- IEEE-754 binary32 rounding of a natural number: keep 24 significant
bits, round to nearest, ties to even.  Exact for m ≤ 2^24. -/
def roundFloatNat (m : Nat) : Nat :=
  let e := scale24 m m
  if e = 0 then m
  else
    let q := m / 2 ^ e
    let r := m % 2 ^ e
    let h := 2 ^ (e - 1)
    (if h < r ∨ (r = h ∧ q % 2 = 1) then q + 1 else q) * 2 ^ e

/-- The value of static_cast<float>(x) for an integer x: IEEE-754
binary32 round-to-nearest-even, symmetric in sign. -/
def floatRound (x : Int) : Int :=
  if x < 0 then -(roundFloatNat x.natAbs : Int) else (roundFloatNat x.toNat : Int)

/-- The chunk-coordinate computation of GameWorld::setBlock/getBlock
(main.cpp lines 258-259, 272-273):
std::floor(static_cast<float>(w) / CHUNK_SIZE).  The float division by
16 and the floor are exact, so the result is the floor division of the
rounded float value by 16. -/
def chunkCoord (w : Int) : Int := Int.fdiv (floatRound w) 16

/-- GameWorld from main.cpp: world id and the sparse chunk map keyed by
the "<chunkX>:<chunkZ>" string. -/
structure GameWorld where
  worldId : String
  chunks : List (String × WorldChunk)

/-- The GameWorld constructor: empty chunk map. -/
def GameWorld.new (worldId : String) : GameWorld :=
  { worldId := worldId, chunks := [] }

/-- The chunk-id string built in GameWorld::getChunk. -/
def chunkIdStr (cx cz : Int) : String :=
  toString cx ++ ":" ++ toString cz

/-- GameWorld::getChunk: return the chunk at (cx, cz), inserting a
freshly constructed chunk into the map when absent.  The returned world
is the post-call map state (the source mutates the member map). -/
def GameWorld.getChunk (w : GameWorld) (cx cz : Int) : WorldChunk × GameWorld :=
  match afind w.chunks (chunkIdStr cx cz) with
  | some c => (c, w)
  | none =>
      let c := WorldChunk.new cx cz
      (c, { w with chunks := ainsert w.chunks (chunkIdStr cx cz) c })

/-- GameWorld::setBlock: translate world to chunk plus local
coordinates, fetch (or create) the chunk, and write through it. -/
def GameWorld.setBlock (w : GameWorld) (x y z blockType now : Int) : GameWorld :=
  let cx := chunkCoord x
  let cz := chunkCoord z
  let localX := x - cx * 16
  let localZ := z - cz * 16
  let p := w.getChunk cx cz
  { p.2 with
    chunks := ainsert p.2.chunks (chunkIdStr cx cz) (p.1.setBlock localX y localZ blockType now) }

/-- GameWorld::getBlock: same coordinate translation, then read through
the chunk; the chunk map may gain a fresh chunk as a side effect, so the
post-call world is returned alongside the value. -/
def GameWorld.getBlock (w : GameWorld) (x y z : Int) : Int × GameWorld :=
  let cx := chunkCoord x
  let cz := chunkCoord z
  let localX := x - cx * 16
  let localZ := z - cz * 16
  let p := w.getChunk cx cz
  (p.1.getBlock localX y localZ, p.2)

/-- GameWorld::serializeChunk: the serialized chunk when present;
`none` models the absent-chunk sentinel blob "{}". -/
def GameWorld.serializeChunk (w : GameWorld) (chunkId : String) : Option SerializedChunk :=
  (afind w.chunks chunkId).map WorldChunk.serialize

/-- Representation invariant of GameWorld: every chunk in the map holds
a dense block array of 65536 cells (established by the constructor and
preserved by every operation). -/
def WorldWF (w : GameWorld) : Prop :=
  ∀ e ∈ w.chunks, e.2.blocks.length = 16 * 16 * 256

/-- Player from main.cpp.  Positions are stored exactly (the source
stores floats but only ever receives the constructor defaults or caller
values; no arithmetic is performed on them). -/
structure Player where
  playerId : String
  playerName : String
  x : Rat
  y : Rat
  z : Rat
  health : Int
  level : Int
  isConnected : Bool
  lastActivity : Int
  unlockedAreas : List String
  learnedAstras : List String
  learnedSiddhis : List String
  hasBrahmaKavacha : Bool

/-- The Player constructor (main.cpp lines 114-118 plus member
initializers): position (0,100,0), health 100, level 1, connected,
lastActivity = now, unlockedAreas = {"starting_area"}, empty astra and
siddhi sets, no Brahma Kavacha. -/
def Player.new (id name : String) (now : Int) : Player :=
  { playerId := id, playerName := name, x := 0, y := 100, z := 0,
    health := 100, level := 1, isConnected := true, lastActivity := now,
    unlockedAreas := ["starting_area"], learnedAstras := [], learnedSiddhis := [],
    hasBrahmaKavacha := false }

/-- Player::setHealth: std::max(0, std::min(100, newHealth)). -/
def Player.setHealth (p : Player) (newHealth : Int) : Player :=
  { p with health := max 0 (min 100 newHealth) }

/-- GameSession from main.cpp: id, mode, owned world, the roster map and
the start time. -/
structure GameSession where
  sessionId : String
  gameMode : String
  world : GameWorld
  players : List (String × Player)
  startTime : Int

/-- The GameSession constructor: fresh world named after the session,
empty roster. -/
def GameSession.new (sessionId gameMode : String) (now : Int) : GameSession :=
  { sessionId := sessionId, gameMode := gameMode, world := GameWorld.new sessionId,
    players := [], startTime := now }

/-- GameSession::addPlayer: reject when the roster already holds
MAX_PLAYERS entries, otherwise store a freshly constructed Player under
playerId (silently overwriting any existing entry, as
players[playerId] = player does) and report success. -/
def GameSession.addPlayer (s : GameSession) (playerId playerName : String) (now : Int) :
    Bool × GameSession :=
  if MAX_PLAYERS ≤ s.players.length then (false, s)
  else
    (true, { s with players := ainsert s.players playerId (Player.new playerId playerName now) })

/-- GameSession::removePlayer: erase the entry when present, no-op
otherwise. -/
def GameSession.removePlayer (s : GameSession) (playerId : String) : GameSession :=
  { s with players := aerase s.players playerId }

/-- GameSession::getPlayer: the roster entry, or none for the null
sentinel. -/
def GameSession.getPlayer (s : GameSession) (playerId : String) : Option Player :=
  afind s.players playerId

/-- GameSession::update (main.cpp lines 375-392): scan the roster for
players whose lastActivity is more than 300 seconds old, then remove
each collected id via removePlayer. -/
def GameSession.update (s : GameSession) (now : Int) : GameSession :=
  let inactivePlayers :=
    (s.players.filter (fun q => decide (300 < now - q.2.lastActivity))).map Prod.fst
  inactivePlayers.foldl (fun acc pid => acc.removePlayer pid) s

/-- A {key, value} game property of the session descriptor delivered by
the hosting platform. -/
structure GameProperty where
  key : String
  value : String

/-- The part of the platform's session descriptor the callback reads:
session id and game properties. -/
structure GameSessionDescriptor where
  gameSessionId : String
  gameProperties : List GameProperty

/-- The game-mode extraction loop of onStartGameSession (main.cpp lines
433-440): start from "standard" and overwrite with the value of every
property whose key is "gameMode". -/
def extractGameMode (props : List GameProperty) : String :=
  props.foldl (fun mode prop => if prop.key = "gameMode" then prop.value else mode) "standard"

/-- onStartGameSession acting on the process-wide active-session slot:
unconditionally install a fresh session built from the descriptor's id
and extracted game mode (any previously active session is overwritten). -/
def onStartGameSession (_g : Option GameSession) (desc : GameSessionDescriptor) (now : Int) :
    Option GameSession :=
  some (GameSession.new desc.gameSessionId (extractGameMode desc.gameProperties) now)

/-- onProcessTerminate acting on the active-session slot: reset it. -/
def onProcessTerminate (_g : Option GameSession) : Option GameSession :=
  none

/-! ## Association-list lemmas -/

theorem afind_ainsert_self {α : Type} (m : List (String × α)) (k : String) (v : α) :
    afind (ainsert m k v) k = some v := by
  induction m with
  | nil => simp [ainsert, afind]
  | cons e rest ih =>
      by_cases h : e.1 = k
      · simp [ainsert, afind, h]
      · simp [ainsert, afind, h, ih]

theorem ainsert_length {α : Type} (m : List (String × α)) (k : String) (v : α) :
    (ainsert m k v).length =
      if (afind m k).isSome then m.length else m.length + 1 := by
  induction m with
  | nil => simp [ainsert, afind]
  | cons e rest ih =>
      by_cases h : e.1 = k
      · simp [ainsert, afind, h]
      · simp [ainsert, afind, h, ih]
        split <;> simp

theorem afind_mem {α : Type} {m : List (String × α)} {k : String} {v : α}
    (h : afind m k = some v) : (k, v) ∈ m := by
  induction m with
  | nil => simp [afind] at h
  | cons e rest ih =>
      obtain ⟨a, b⟩ := e
      by_cases he : a = k
      · simp [afind, he] at h
        subst he
        subst h
        exact List.mem_cons_self _ _
      · simp [afind, he] at h
        exact List.mem_cons_of_mem _ (ih h)

theorem mem_afind_of_nodup {α : Type} {m : List (String × α)} {k : String} {v : α}
    (hn : keysNodup m) (h : (k, v) ∈ m) : afind m k = some v := by
  induction m with
  | nil => simp at h
  | cons e rest ih =>
      rcases List.mem_cons.mp h with h1 | h1
      · simp [afind, ← h1]
      · have hk : e.1 ≠ k := by
          intro hek
          have : k ∈ rest.map Prod.fst := List.mem_map_of_mem Prod.fst h1
          have := (List.nodup_cons.mp hn).1
          rw [hek] at this
          exact this ‹k ∈ rest.map Prod.fst›
        simp [afind, hk]
        exact ih (List.nodup_cons.mp hn).2 h1

theorem afind_eq_none_iff {α : Type} (m : List (String × α)) (k : String) :
    afind m k = none ↔ k ∉ m.map Prod.fst := by
  induction m with
  | nil => simp [afind]
  | cons e rest ih =>
      by_cases h : e.1 = k
      · simp [afind, h]
      · simp [afind, h, ih, Ne.symm h]

theorem aerase_sublist {α : Type} (m : List (String × α)) (k : String) :
    (aerase m k).Sublist m := by
  induction m with
  | nil => simp [aerase]
  | cons e rest ih =>
      by_cases h : e.1 = k
      · simp [aerase, h]
      · simpa [aerase, h] using List.Sublist.cons₂ e ih

theorem keysNodup_aerase {α : Type} {m : List (String × α)} (k : String)
    (hn : keysNodup m) : keysNodup (aerase m k) :=
  ((aerase_sublist m k).map Prod.fst).nodup hn

theorem afind_aerase_ne {α : Type} (m : List (String × α)) {j k : String} (h : j ≠ k) :
    afind (aerase m j) k = afind m k := by
  induction m with
  | nil => simp [aerase]
  | cons e rest ih =>
      by_cases he : e.1 = j
      · have hek : e.1 ≠ k := by rw [he]; exact h
        simp [aerase, afind, he, hek, h]
      · simp [aerase, afind, he, ih]

theorem afind_aerase_self {α : Type} {m : List (String × α)} (k : String)
    (hn : keysNodup m) : afind (aerase m k) k = none := by
  induction m with
  | nil => simp [aerase, afind]
  | cons e rest ih =>
      by_cases he : e.1 = k
      · simp only [aerase, he, if_pos]
        rw [afind_eq_none_iff]
        intro hmem
        have := (List.nodup_cons.mp hn).1
        rw [he] at this
        exact this hmem
      · simp [aerase, afind, he, ih (List.nodup_cons.mp hn).2]

theorem afind_aerase_none {α : Type} {m : List (String × α)} (j : String) {k : String}
    (h : afind m k = none) : afind (aerase m j) k = none := by
  rw [afind_eq_none_iff] at h ⊢
  intro hmem
  exact h (((aerase_sublist m j).map Prod.fst).mem hmem)

theorem foldl_aerase_none {α : Type} (ids : List String) (m : List (String × α)) (k : String)
    (h : afind m k = none) : afind (ids.foldl aerase m) k = none := by
  induction ids generalizing m with
  | nil => simpa using h
  | cons j rest ih => exact ih _ (afind_aerase_none j h)

theorem foldl_aerase_mem {α : Type} (ids : List String) (m : List (String × α)) (k : String)
    (hn : keysNodup m) (h : k ∈ ids) : afind (ids.foldl aerase m) k = none := by
  induction ids generalizing m with
  | nil => simp at h
  | cons j rest ih =>
      by_cases hkj : k = j
      · subst hkj
        exact foldl_aerase_none rest _ k (afind_aerase_self k hn)
      · have : k ∈ rest := by
          rcases List.mem_cons.mp h with h1 | h1
          · exact absurd h1 hkj
          · exact h1
        exact ih _ (keysNodup_aerase j hn) this

theorem foldl_aerase_not_mem {α : Type} (ids : List String) (m : List (String × α)) (k : String)
    (h : k ∉ ids) : afind (ids.foldl aerase m) k = afind m k := by
  induction ids generalizing m with
  | nil => rfl
  | cons j rest ih =>
      have hjk : j ≠ k := fun he => h (by simp [← he])
      have hrest : k ∉ rest := fun hr => h (List.mem_cons_of_mem _ hr)
      rw [List.foldl_cons, ih _ hrest, afind_aerase_ne m hjk]

/-! ## Run-length-encoding lemmas -/

theorem rleDecode_rleEncodeGo (xs : List Int) (cur : Int) (cnt : Nat) :
    rleDecode (rleEncodeGo cur cnt xs) = List.replicate cnt cur ++ xs := by
  induction xs generalizing cur cnt with
  | nil => simp [rleEncodeGo, rleDecode]
  | cons x xs ih =>
      by_cases h : x = cur
      · subst h
        rw [rleEncodeGo, if_pos rfl, ih]
        rw [List.replicate_succ' cnt x]
        simp
      · rw [rleEncodeGo, if_neg h, rleDecode, ih]
        simp

theorem rleDecode_rleEncode (l : List Int) (h : l ≠ []) :
    rleDecode (rleEncode l) = l := by
  cases l with
  | nil => exact absurd rfl h
  | cons b rest =>
      rw [rleEncode, rleDecode_rleEncodeGo]
      simp

theorem rleEncodeGo_head (xs : List Int) (cur : Int) (cnt : Nat) :
    ∃ n, (rleEncodeGo cur cnt xs).head? = some (cur, n) := by
  induction xs generalizing cur cnt with
  | nil => exact ⟨cnt, rfl⟩
  | cons x xs ih =>
      by_cases h : x = cur
      · subst h
        rw [rleEncodeGo, if_pos rfl]
        exact ih x (cnt + 1)
      · exact ⟨cnt, by rw [rleEncodeGo, if_neg h]; rfl⟩

theorem rleEncodeGo_chain (xs : List Int) (cur : Int) (cnt : Nat) :
    List.Chain' (fun p q : Int × Nat => p.1 ≠ q.1) (rleEncodeGo cur cnt xs) := by
  induction xs generalizing cur cnt with
  | nil => simp [rleEncodeGo]
  | cons x xs ih =>
      by_cases h : x = cur
      · subst h
        rw [rleEncodeGo, if_pos rfl]
        exact ih x (cnt + 1)
      · rw [rleEncodeGo, if_neg h]
        rw [List.chain'_cons']
        refine ⟨?_, ih x 1⟩
        intro b hb
        obtain ⟨n, hn⟩ := rleEncodeGo_head xs x 1
        rw [hn] at hb
        simp at hb
        subst hb
        simpa using fun he => h he.symm

theorem rleEncodeGo_sum (xs : List Int) (cur : Int) (cnt : Nat) :
    ((rleEncodeGo cur cnt xs).map Prod.snd).sum = cnt + xs.length := by
  induction xs generalizing cur cnt with
  | nil => simp [rleEncodeGo]
  | cons x xs ih =>
      by_cases h : x = cur
      · subst h
        rw [rleEncodeGo, if_pos rfl]
        rw [ih]
        simp
        omega
      · rw [rleEncodeGo, if_neg h]
        simp [ih]
        omega

theorem rleEncodeGo_replicate (n : Nat) (a : Int) (cnt : Nat) :
    rleEncodeGo a cnt (List.replicate n a) = [(a, cnt + n)] := by
  induction n generalizing cnt with
  | zero => simp [rleEncodeGo]
  | succ n ih =>
      rw [List.replicate_succ, rleEncodeGo, if_pos rfl, ih]
      congr 2
      omega

theorem rleEncode_replicate_zero :
    rleEncode (List.replicate (16 * 16 * 256) (0 : Int)) = [(0, 65536)] := by
  have h : (16 * 16 * 256 : Nat) = 65535 + 1 := by norm_num
  rw [h, List.replicate_succ, rleEncode, rleEncodeGo_replicate]

/-! ## List, rounding and floor-division helpers -/

theorem getD_set_self (l : List Int) (i : Nat) (v : Int) (h : i < l.length) :
    (l.set i v).getD i 0 = v := by
  induction l generalizing i with
  | nil => simp at h
  | cons a rest ih =>
      cases i with
      | zero => rfl
      | succ n =>
          simp only [List.set]
          simpa using ih n (by simpa using h)

theorem scale24_small {fuel m : Nat} (h : m < 16777216) : scale24 fuel m = 0 := by
  cases fuel with
  | zero => rfl
  | succ f => simp [scale24, h]

theorem roundFloatNat_small {m : Nat} (h : m ≤ 16777216) : roundFloatNat m = m := by
  rcases Nat.lt_or_ge m 16777216 with h1 | h1
  · rw [roundFloatNat]
    simp [scale24_small h1]
  · have hm : m = 16777216 := le_antisymm h h1
    subst hm
    decide

theorem floatRound_exact {x : Int} (h : x.natAbs ≤ 16777216) : floatRound x = x := by
  rw [floatRound]
  split
  · rw [roundFloatNat_small (by omega)]
    omega
  · rw [roundFloatNat_small (by omega)]
    omega

theorem chunkCoord_exact {x : Int} (h : x.natAbs ≤ 16777216) :
    chunkCoord x = Int.fdiv x 16 := by
  rw [chunkCoord, floatRound_exact h]

theorem fdiv_local_bounds (a : Int) :
    0 ≤ a - Int.fdiv a 16 * 16 ∧ a - Int.fdiv a 16 * 16 < 16 := by
  have h := Int.fdiv_add_fmod a 16
  have h1 : 0 ≤ Int.fmod a 16 := Int.fmod_nonneg' a (by norm_num)
  have h2 : Int.fmod a 16 < 16 := Int.fmod_lt_of_pos a (by norm_num)
  omega

/-! ## Chunk and world helpers -/

theorem chunk_setBlock_getBlock (c : WorldChunk) (x y z t now : Int)
    (hlen : c.blocks.length = 16 * 16 * 256)
    (hx : 0 ≤ x) (hx' : x < 16) (hy : 0 ≤ y) (hy' : y < 256) (hz : 0 ≤ z) (hz' : z < 16) :
    (c.setBlock x y z t now).getBlock x y z = t := by
  have hcond : ¬(x < 0 ∨ 16 ≤ x ∨ y < 0 ∨ 256 ≤ y ∨ z < 0 ∨ 16 ≤ z) := by omega
  rw [WorldChunk.setBlock, if_neg hcond, WorldChunk.getBlock, if_neg hcond]
  have hidx : (y * 16 * 16 + z * 16 + x).toNat < c.blocks.length := by
    rw [hlen]; omega
  exact getD_set_self _ _ _ (by simpa using hidx)

theorem getChunk_found {w : GameWorld} {cx cz : Int} {c : WorldChunk}
    (h : afind w.chunks (chunkIdStr cx cz) = some c) :
    w.getChunk cx cz = (c, w) := by
  rw [GameWorld.getChunk, h]

theorem getChunk_spec (w : GameWorld) (cx cz : Int) (hwf : WorldWF w) :
    ((w.getChunk cx cz).1).blocks.length = 16 * 16 * 256 ∧
    afind ((w.getChunk cx cz).2).chunks (chunkIdStr cx cz) = some (w.getChunk cx cz).1 := by
  rw [GameWorld.getChunk]
  cases hfind : afind w.chunks (chunkIdStr cx cz) with
  | some c =>
      refine ⟨hwf _ (afind_mem hfind), hfind⟩
  | none =>
      refine ⟨?_, afind_ainsert_self _ _ _⟩
      show (WorldChunk.new cx cz).blocks.length = 16 * 16 * 256
      rw [WorldChunk.new]
      exact List.length_replicate _ _

theorem setBlock_blocks_length (c : WorldChunk) (x y z t now : Int) :
    (c.setBlock x y z t now).blocks.length = c.blocks.length := by
  rw [WorldChunk.setBlock]
  split
  · rfl
  · simp [List.length_set]

theorem foldl_removePlayer_players (ids : List String) (s : GameSession) :
    (ids.foldl (fun acc pid => acc.removePlayer pid) s).players =
      ids.foldl aerase s.players := by
  induction ids generalizing s with
  | nil => rfl
  | cons j rest ih =>
      rw [List.foldl_cons, List.foldl_cons, ih]
      rfl

theorem foldl_gameMode_const (props : List GameProperty) (init : String)
    (h : ∀ p ∈ props, p.key ≠ "gameMode") :
    props.foldl (fun mode prop => if prop.key = "gameMode" then prop.value else mode) init
      = init := by
  induction props generalizing init with
  | nil => rfl
  | cons p rest ih =>
      simp only [List.foldl_cons]
      rw [if_neg (h p (List.mem_cons_self p rest))]
      exact ih init fun q hq => h q (List.mem_cons_of_mem p hq)

/-! ## Claim theorems -/

/-- Claim C3: for every chunk state (block array of the invariant length
65536), decoding the blocks array of WorldChunk::serialize by
concatenating count copies of each type in array order reproduces
exactly the stored block sequence, and reading the decoded sequence at
index y*CHUNK_SIZE^2 + z*CHUNK_SIZE + x agrees with getBlock for every
in-range local coordinate (the linearization order). -/
theorem chunk_serialize_rle_roundtrip (c : WorldChunk)
    (hlen : c.blocks.length = 16 * 16 * 256) :
    rleDecode c.serialize.blocks = c.blocks ∧
    (∀ x y z : Int, 0 ≤ x → x < 16 → 0 ≤ y → y < 256 → 0 ≤ z → z < 16 →
      (rleDecode c.serialize.blocks).getD (y * 16 * 16 + z * 16 + x).toNat 0 =
        c.getBlock x y z) := by
  have hne : c.blocks ≠ [] := by
    intro hnil
    rw [hnil] at hlen
    simp at hlen
  have hdec : rleDecode c.serialize.blocks = c.blocks := by
    show rleDecode (rleEncode c.blocks) = c.blocks
    exact rleDecode_rleEncode _ hne
  refine ⟨hdec, ?_⟩
  intro x y z hx hx' hy hy' hz hz'
  rw [hdec, WorldChunk.getBlock, if_neg (by omega)]

/-- Witness for C3 at the freshly constructed chunk. -/
theorem chunk_serialize_rle_roundtrip_witness :
    rleDecode (WorldChunk.new 0 0).serialize.blocks = (WorldChunk.new 0 0).blocks :=
  (chunk_serialize_rle_roundtrip (WorldChunk.new 0 0)
    (show (List.replicate (16 * 16 * 256) (0 : Int)).length = 16 * 16 * 256 from
      List.length_replicate _ _)).1

/-- Claim C4: the RLE output of WorldChunk::serialize is compact: no two
adjacent entries share a type, the counts sum to 65536, and the
serialization of a freshly created (all-zero) chunk is exactly the
single entry (type 0, count 65536). -/
theorem chunk_serialize_compact (c : WorldChunk) (cx cz : Int)
    (hlen : c.blocks.length = 16 * 16 * 256) :
    List.Chain' (fun p q : Int × Nat => p.1 ≠ q.1) c.serialize.blocks ∧
    (c.serialize.blocks.map Prod.snd).sum = 65536 ∧
    (WorldChunk.new cx cz).serialize.blocks = [(0, 65536)] := by
  refine ⟨?_, ?_, ?_⟩
  · show List.Chain' (fun p q : Int × Nat => p.1 ≠ q.1) (rleEncode c.blocks)
    cases hb : c.blocks with
    | nil => simp [rleEncode]
    | cons b rest =>
        rw [rleEncode]
        exact rleEncodeGo_chain rest b 1
  · show ((rleEncode c.blocks).map Prod.snd).sum = 65536
    cases hb : c.blocks with
    | nil =>
        rw [hb] at hlen
        simp at hlen
    | cons b rest =>
        have h2 : rest.length + 1 = 16 * 16 * 256 := by
          rw [hb] at hlen
          simpa using hlen
        rw [rleEncode, rleEncodeGo_sum]
        omega
  · have hser : ∀ d : WorldChunk, d.serialize.blocks = rleEncode d.blocks := fun d => rfl
    have hblocks : (WorldChunk.new cx cz).blocks = List.replicate (16 * 16 * 256) (0 : Int) :=
      rfl
    exact ((hser _).trans (congrArg rleEncode hblocks)).trans rleEncode_replicate_zero

/-- Witness for C4 at the freshly constructed chunk. -/
theorem chunk_serialize_compact_witness :
    List.Chain' (fun p q : Int × Nat => p.1 ≠ q.1) (WorldChunk.new 0 0).serialize.blocks ∧
    ((WorldChunk.new 0 0).serialize.blocks.map Prod.snd).sum = 65536 ∧
    (WorldChunk.new 1 2).serialize.blocks = [(0, 65536)] :=
  chunk_serialize_compact (WorldChunk.new 0 0) 1 2
    (show (List.replicate (16 * 16 * 256) (0 : Int)).length = 16 * 16 * 256 from
      List.length_replicate _ _)

/-- Claim C6: WorldChunk::setBlock with an out-of-range local coordinate
changes nothing (neither the block array nor lastModified, silently) and
WorldChunk::getBlock returns 0 there. -/
theorem chunk_out_of_range_silent (c : WorldChunk) (x y z t now : Int)
    (h : ¬(0 ≤ x ∧ x < 16 ∧ 0 ≤ y ∧ y < 256 ∧ 0 ≤ z ∧ z < 16)) :
    c.setBlock x y z t now = c ∧ c.getBlock x y z = 0 := by
  have hc : x < 0 ∨ 16 ≤ x ∨ y < 0 ∨ 256 ≤ y ∨ z < 0 ∨ 16 ≤ z := by omega
  exact ⟨by rw [WorldChunk.setBlock, if_pos hc], by rw [WorldChunk.getBlock, if_pos hc]⟩

/-- Witness for C6 at local x = -1. -/
theorem chunk_out_of_range_silent_witness :
    (WorldChunk.new 0 0).setBlock (-1) 0 0 5 3 = WorldChunk.new 0 0 ∧
    (WorldChunk.new 0 0).getBlock (-1) 0 0 = 0 :=
  chunk_out_of_range_silent (WorldChunk.new 0 0) (-1) 0 0 5 3 (by decide)

/-- Claim C7: from the Idle state (no active session), onStartGameSession
with sessionId "S1" and properties [{gameMode, arena}] installs an active
session with id "S1" and mode "arena"; the mode defaults to "standard"
when no property has key "gameMode"; a subsequent onProcessTerminate
leaves no active session. -/
theorem lifecycle_start_terminate (now : Int) :
    ((onStartGameSession none ⟨"S1", [⟨"gameMode", "arena"⟩]⟩ now).map GameSession.sessionId
        = some "S1" ∧
      (onStartGameSession none ⟨"S1", [⟨"gameMode", "arena"⟩]⟩ now).map GameSession.gameMode
        = some "arena" ∧
      onProcessTerminate (onStartGameSession none ⟨"S1", [⟨"gameMode", "arena"⟩]⟩ now) = none) ∧
    (∀ props : List GameProperty, (∀ p ∈ props, p.key ≠ "gameMode") →
      extractGameMode props = "standard") := by
  constructor
  · refine ⟨rfl, ?_, rfl⟩
    show some (extractGameMode [⟨"gameMode", "arena"⟩]) = some "arena"
    rw [extractGameMode]
    rfl
  · intro props h
    exact foldl_gameMode_const props "standard" h

/-- Witness for C7: a property list without a gameMode key yields the
default mode. -/
theorem lifecycle_start_terminate_witness :
    extractGameMode [⟨"maxPlayers", "8"⟩] = "standard" :=
  (lifecycle_start_terminate 0).2 [⟨"maxPlayers", "8"⟩] (by decide)

/-- Claim C8: Player::setHealth stores the argument clamped to [0, 100],
so the health field lies in [0, 100] after every call, whatever the
previous player state and whatever integer is passed. -/
theorem player_setHealth_clamped (p : Player) (h : Int) :
    0 ≤ (p.setHealth h).health ∧ (p.setHealth h).health ≤ 100 := by
  have hh : (p.setHealth h).health = max 0 (min 100 h) := rfl
  rw [hh]
  exact ⟨le_max_left _ _, max_le (by norm_num) (min_le_left _ _)⟩

/-- Claim C1 as frozen is false on the code: below capacity,
GameSession::addPlayer with a playerId already in the roster returns
true yet leaves the roster size unchanged (players[playerId] = player
overwrites), so "a return of true corresponds exactly to a roster-size
increment of 1" fails.  Concretely: after adding player "p", adding "p"
again returns true while the size stays 1. -/
theorem session_addPlayer_duplicate_counterexample :
    (((GameSession.new "S" "standard" 0).addPlayer "p" "Alice" 0).2.addPlayer "p" "Bob" 1).1
        = true ∧
    (GameSession.players
        (((GameSession.new "S" "standard" 0).addPlayer "p" "Alice" 0).2.addPlayer "p" "Bob" 1).2).length
      = ((GameSession.new "S" "standard" 0).addPlayer "p" "Alice" 0).2.players.length := by
  decide

/-- Claim C1 (amended): addPlayer returns false exactly when the roster
already holds MAX_PLAYERS entries, and then changes nothing; below
capacity it returns true and the roster size increases by 1 exactly when
the playerId was not already present (staying unchanged when it was);
consequently the roster size never exceeds MAX_PLAYERS = 16. -/
theorem session_addPlayer_capacity (s : GameSession) (pid name : String) (now : Int) :
    ((s.addPlayer pid name now).1 = false ↔ MAX_PLAYERS ≤ s.players.length) ∧
    (MAX_PLAYERS ≤ s.players.length → (s.addPlayer pid name now).2 = s) ∧
    (s.players.length < MAX_PLAYERS →
      (s.addPlayer pid name now).2.players.length =
        if (afind s.players pid).isSome then s.players.length else s.players.length + 1) ∧
    (s.addPlayer pid name now).2.players.length ≤ max s.players.length MAX_PLAYERS := by
  rw [GameSession.addPlayer]
  by_cases h : MAX_PLAYERS ≤ s.players.length
  · rw [if_pos h]
    exact ⟨by simp [h], fun _ => rfl, fun hlt => absurd h (by omega), le_max_left _ _⟩
  · rw [if_neg h]
    refine ⟨by simp [h], fun hge => absurd hge h, fun _ => ?_, ?_⟩
    · show (ainsert s.players pid (Player.new pid name now)).length = _
      rw [ainsert_length]
    · show (ainsert s.players pid (Player.new pid name now)).length ≤ _
      rw [ainsert_length]
      split
      · exact le_max_left _ _
      · have h1 : s.players.length + 1 ≤ MAX_PLAYERS := by omega
        exact le_trans h1 (le_max_right _ _)

/-- Witness for the amended C1: adding a player to the fresh (empty)
session grows the roster to 1. -/
theorem session_addPlayer_capacity_witness :
    ((GameSession.new "S" "standard" 0).addPlayer "p" "Alice" 0).2.players.length = 1 := by
  have h := (session_addPlayer_capacity (GameSession.new "S" "standard" 0) "p" "Alice" 0).2.2.1
    (by decide)
  simpa [afind, GameSession.new] using h

/-- Claim C9: below capacity, addPlayer with an already-present playerId
returns true, keeps the roster size unchanged, and replaces the entry
with a freshly constructed Player: position (0,100,0), health 100,
level 1, connected, progression reset to the single unlocked area
"starting_area" with empty astra and siddhi sets. -/
theorem session_addPlayer_overwrite (s : GameSession) (pid name : String) (now : Int)
    (hlt : s.players.length < MAX_PLAYERS) (hmem : (afind s.players pid).isSome = true) :
    (s.addPlayer pid name now).1 = true ∧
    (s.addPlayer pid name now).2.players.length = s.players.length ∧
    (s.addPlayer pid name now).2.getPlayer pid = some (Player.new pid name now) ∧
    (Player.new pid name now).x = 0 ∧ (Player.new pid name now).y = 100 ∧
    (Player.new pid name now).z = 0 ∧ (Player.new pid name now).health = 100 ∧
    (Player.new pid name now).level = 1 ∧ (Player.new pid name now).isConnected = true ∧
    (Player.new pid name now).unlockedAreas = ["starting_area"] ∧
    (Player.new pid name now).learnedAstras = [] ∧
    (Player.new pid name now).learnedSiddhis = [] := by
  have hn : ¬ MAX_PLAYERS ≤ s.players.length := by omega
  rw [GameSession.addPlayer, if_neg hn]
  refine ⟨rfl, ?_, ?_, rfl, rfl, rfl, rfl, rfl, rfl, rfl, rfl, rfl⟩
  · show (ainsert s.players pid (Player.new pid name now)).length = s.players.length
    rw [ainsert_length, if_pos hmem]
  · show afind (ainsert s.players pid (Player.new pid name now)) pid
        = some (Player.new pid name now)
    exact afind_ainsert_self _ _ _

/-- Witness for C9: re-adding "p" to a session that already holds "p". -/
theorem session_addPlayer_overwrite_witness :
    GameSession.getPlayer
        ((((GameSession.new "S" "standard" 0).addPlayer "p" "Alice" 0).2).addPlayer "p" "Bob" 1).2
        "p" = some (Player.new "p" "Bob" 1) :=
  (session_addPlayer_overwrite ((GameSession.new "S" "standard" 0).addPlayer "p" "Alice" 0).2
    "p" "Bob" 1 (by decide) (by decide)).2.2.1

/-- Claim C5: when GameSession::update runs at time now, every roster
player whose lastActivity is more than 300 seconds old is absent
afterwards, and every player whose lastActivity is at most 299 seconds
old is still present with the same state. -/
theorem session_update_idle_eviction (s : GameSession) (now : Int) (pid : String) (p : Player)
    (hn : keysNodup s.players) (hp : s.getPlayer pid = some p) :
    (300 < now - p.lastActivity → (s.update now).getPlayer pid = none) ∧
    (now - p.lastActivity ≤ 299 → (s.update now).getPlayer pid = some p) := by
  have hp' : afind s.players pid = some p := hp
  have hup : (s.update now).players =
      ((s.players.filter (fun q => decide (300 < now - q.2.lastActivity))).map Prod.fst).foldl
        aerase s.players := foldl_removePlayer_players _ s
  constructor
  · intro hold
    show afind (s.update now).players pid = none
    rw [hup]
    apply foldl_aerase_mem _ _ _ hn
    have hmemf : (pid, p) ∈ s.players.filter (fun q => decide (300 < now - q.2.lastActivity)) := by
      rw [List.mem_filter]
      exact ⟨afind_mem hp', by simpa using hold⟩
    exact List.mem_map_of_mem Prod.fst hmemf
  · intro hnew
    show afind (s.update now).players pid = some p
    rw [hup, foldl_aerase_not_mem]
    · exact hp'
    · intro hmem
      rw [List.mem_map] at hmem
      obtain ⟨q, hq, hqfst⟩ := hmem
      rw [List.mem_filter] at hq
      obtain ⟨hqmem, hqdec⟩ := hq
      obtain ⟨k, v⟩ := q
      have hv : afind s.players pid = some v := by
        rw [← hqfst]
        exact mem_afind_of_nodup hn hqmem
      have hvp : v = p := Option.some.inj (hv.symm.trans hp')
      rw [hvp] at hqdec
      simp only [decide_eq_true_eq] at hqdec
      omega

/-- Witness for C5: a player idle for 301 seconds is evicted. -/
theorem session_update_idle_eviction_witness :
    (((GameSession.new "S" "standard" 0).addPlayer "p" "Alice" 0).2.update 301).getPlayer "p"
      = none :=
  (session_update_idle_eviction ((GameSession.new "S" "standard" 0).addPlayer "p" "Alice" 0).2
    301 "p" (Player.new "p" "Alice" 0) (by unfold keysNodup; decide) rfl).1 (by decide)

/-- The RLE encoding of a freshly constructed chunk's block array. -/
theorem rleEncode_new_blocks (cx cz : Int) :
    rleEncode (WorldChunk.new cx cz).blocks = [(0, 65536)] :=
  (congrArg rleEncode
    (rfl : (WorldChunk.new cx cz).blocks = List.replicate (16 * 16 * 256) (0 : Int))).trans
    rleEncode_replicate_zero

/-- The full serialization of a freshly constructed chunk. -/
theorem serialize_new_eq (cx cz : Int) :
    (WorldChunk.new cx cz).serialize
      = { chunkId := chunkIdStr cx cz, blocks := [(0, 65536)], lastModified := 0 } := by
  show ({ chunkId := chunkIdStr cx cz, blocks := rleEncode (WorldChunk.new cx cz).blocks,
          lastModified := 0 } : SerializedChunk)
      = { chunkId := chunkIdStr cx cz, blocks := [(0, 65536)], lastModified := 0 }
  exact congrArg (fun l => SerializedChunk.mk (chunkIdStr cx cz) l 0) (rleEncode_new_blocks cx cz)

/-- Claim C2 as frozen is false on the code: the chunk coordinate is
computed through static_cast<float>, which is inexact for |wx| > 2^24.
At wx = 268435473 = 2^28 + 17 the float spacing is 32 and the chunk
containing wx holds no representable value, so the conversion (round to
nearest: 268435488) lands in chunk 16777218 instead of
floor(wx/16) = 16777217, the local x becomes -15 (outside [0,16)), and
setBlock followed by getBlock returns 0 instead of the written 5. -/
theorem world_block_roundtrip_counterexample :
    (((GameWorld.new "w").setBlock 268435473 10 0 5 1).getBlock 268435473 10 0).1 = 0 ∧
    (0 : Int) ≠ 5 ∧
    chunkCoord 268435473 = 16777218 ∧
    Int.fdiv 268435473 16 = 16777217 ∧
    268435473 - chunkCoord 268435473 * 16 = -15 := by
  decide

/-- Claim C2 (amended): for world coordinates with |wx|, |wz| ≤ 2^24
(where the float cast in GameWorld::setBlock/getBlock is exact) and
wy in [0,256), the chunk coordinate is the floor of wx/16 (rounding
toward negative infinity, including negative wx), the local coordinate
wx - chunkX*16 lies in [0,16), and setBlock followed by getBlock at the
same world coordinate returns the written block type. -/
theorem world_block_roundtrip_bounded (w : GameWorld) (wx wy wz t now : Int)
    (hwf : WorldWF w) (hx : wx.natAbs ≤ 16777216) (hz : wz.natAbs ≤ 16777216)
    (hy0 : 0 ≤ wy) (hy1 : wy < 256) :
    chunkCoord wx = Int.fdiv wx 16 ∧
    (0 ≤ wx - chunkCoord wx * 16 ∧ wx - chunkCoord wx * 16 < 16) ∧
    ((w.setBlock wx wy wz t now).getBlock wx wy wz).1 = t := by
  have hcx : chunkCoord wx = Int.fdiv wx 16 := chunkCoord_exact hx
  have hcz : chunkCoord wz = Int.fdiv wz 16 := chunkCoord_exact hz
  have hbx := fdiv_local_bounds wx
  have hbz := fdiv_local_bounds wz
  have hlx0 : 0 ≤ wx - chunkCoord wx * 16 := by rw [hcx]; exact hbx.1
  have hlx1 : wx - chunkCoord wx * 16 < 16 := by rw [hcx]; exact hbx.2
  have hlz0 : 0 ≤ wz - chunkCoord wz * 16 := by rw [hcz]; exact hbz.1
  have hlz1 : wz - chunkCoord wz * 16 < 16 := by rw [hcz]; exact hbz.2
  refine ⟨hcx, ⟨hlx0, hlx1⟩, ?_⟩
  obtain ⟨hclen, hcfind⟩ := getChunk_spec w (chunkCoord wx) (chunkCoord wz) hwf
  have hfound : afind (w.setBlock wx wy wz t now).chunks
      (chunkIdStr (chunkCoord wx) (chunkCoord wz))
      = some ((w.getChunk (chunkCoord wx) (chunkCoord wz)).1.setBlock
          (wx - chunkCoord wx * 16) wy (wz - chunkCoord wz * 16) t now) :=
    afind_ainsert_self _ _ _
  have hgb : ((w.setBlock wx wy wz t now).getBlock wx wy wz).1
      = ((w.getChunk (chunkCoord wx) (chunkCoord wz)).1.setBlock
          (wx - chunkCoord wx * 16) wy (wz - chunkCoord wz * 16) t now).getBlock
          (wx - chunkCoord wx * 16) wy (wz - chunkCoord wz * 16) := by
    show (((w.setBlock wx wy wz t now).getChunk (chunkCoord wx) (chunkCoord wz)).1).getBlock
        (wx - chunkCoord wx * 16) wy (wz - chunkCoord wz * 16) = _
    rw [getChunk_found hfound]
  rw [hgb]
  exact chunk_setBlock_getBlock _ _ _ _ _ _ hclen hlx0 hlx1 hy0 hy1 hlz0 hlz1

/-- Witness for the amended C2: the negative-coordinate scenario
setBlock(-1, 10, -1, 5) then getBlock(-1, 10, -1) on a fresh world
returns 5. -/
theorem world_block_roundtrip_bounded_witness :
    (((GameWorld.new "W").setBlock (-1) 10 (-1) 5 7).getBlock (-1) 10 (-1)).1 = 5 :=
  (world_block_roundtrip_bounded (GameWorld.new "W") (-1) 10 (-1) 5 7
    (by intro e he; exact absurd he (List.not_mem_nil e))
    (by decide) (by decide) (by decide) (by decide)).2.2

/-- Claim C10: GameWorld::getBlock is not read-only on the chunk map:
when the chunk of the queried coordinate is absent, serializeChunk
returns the absent sentinel ("{}", modelled none) before the call, and
after getBlock the map holds a fresh all-zero chunk with
lastModified = 0 whose serialization is a full blob (single RLE entry
(0, 65536)); GameWorld::setBlock materializes the chunk likewise. -/
theorem world_getBlock_materializes (w : GameWorld) (wx wy wz t now : Int)
    (habs : afind w.chunks (chunkIdStr (chunkCoord wx) (chunkCoord wz)) = none) :
    w.serializeChunk (chunkIdStr (chunkCoord wx) (chunkCoord wz)) = none ∧
    afind ((w.getBlock wx wy wz).2).chunks (chunkIdStr (chunkCoord wx) (chunkCoord wz))
      = some (WorldChunk.new (chunkCoord wx) (chunkCoord wz)) ∧
    (w.getBlock wx wy wz).2.serializeChunk (chunkIdStr (chunkCoord wx) (chunkCoord wz))
      = some { chunkId := chunkIdStr (chunkCoord wx) (chunkCoord wz), blocks := [(0, 65536)],
               lastModified := 0 } ∧
    (afind ((w.setBlock wx wy wz t now).chunks)
        (chunkIdStr (chunkCoord wx) (chunkCoord wz))).isSome = true := by
  have hgc : w.getChunk (chunkCoord wx) (chunkCoord wz)
      = (WorldChunk.new (chunkCoord wx) (chunkCoord wz),
          GameWorld.mk w.worldId
            (ainsert w.chunks (chunkIdStr (chunkCoord wx) (chunkCoord wz))
              (WorldChunk.new (chunkCoord wx) (chunkCoord wz)))) := by
    rw [GameWorld.getChunk, habs]
  have h2 : afind ((w.getBlock wx wy wz).2).chunks (chunkIdStr (chunkCoord wx) (chunkCoord wz))
      = some (WorldChunk.new (chunkCoord wx) (chunkCoord wz)) := by
    show afind ((w.getChunk (chunkCoord wx) (chunkCoord wz)).2).chunks
        (chunkIdStr (chunkCoord wx) (chunkCoord wz))
      = some (WorldChunk.new (chunkCoord wx) (chunkCoord wz))
    rw [hgc]
    exact afind_ainsert_self _ _ _
  refine ⟨?_, h2, ?_, ?_⟩
  · rw [GameWorld.serializeChunk, habs]
    rfl
  · have hmap : (w.getBlock wx wy wz).2.serializeChunk
        (chunkIdStr (chunkCoord wx) (chunkCoord wz))
        = (afind ((w.getBlock wx wy wz).2).chunks
            (chunkIdStr (chunkCoord wx) (chunkCoord wz))).map WorldChunk.serialize := rfl
    have hB := congrArg (Option.map WorldChunk.serialize) h2
    have hC : Option.map WorldChunk.serialize
          (some (WorldChunk.new (chunkCoord wx) (chunkCoord wz)))
        = some ((WorldChunk.new (chunkCoord wx) (chunkCoord wz)).serialize) := rfl
    have hD := congrArg some (serialize_new_eq (chunkCoord wx) (chunkCoord wz))
    exact ((hmap.trans hB).trans hC).trans hD
  · show (afind (ainsert ((w.getChunk (chunkCoord wx) (chunkCoord wz)).2).chunks
        (chunkIdStr (chunkCoord wx) (chunkCoord wz))
        ((w.getChunk (chunkCoord wx) (chunkCoord wz)).1.setBlock
          (wx - chunkCoord wx * 16) wy (wz - chunkCoord wz * 16) t now))
        (chunkIdStr (chunkCoord wx) (chunkCoord wz))).isSome = true
    rw [afind_ainsert_self]
    rfl

/-- Witness for C10 on a fresh world at world coordinate (5, 10, 7). -/
theorem world_getBlock_materializes_witness :
    ((GameWorld.new "w").getBlock 5 10 7).2.serializeChunk
        (chunkIdStr (chunkCoord 5) (chunkCoord 7))
      = some { chunkId := chunkIdStr (chunkCoord 5) (chunkCoord 7), blocks := [(0, 65536)],
               lastModified := 0 } :=
  (world_getBlock_materializes (GameWorld.new "w") 5 10 7 3 9 rfl).2.2.1
